import Mathlib

/-!
Shallow embedding of the chat wire protocol and per-connection pipeline
(src/reader.rs, src/peer.rs, src/main.rs).

Byte buffers are `List Nat`, one entry per octet.  The `BytesMut` pending
buffer of the `Reader` is modelled by its contents together with a `Nat`
capacity; `BytesMut::reserve(additional)` guarantees
`capacity ≥ len + additional` (we track the minimal guaranteed capacity).
`Instant`/`Duration` are modelled as `Nat` time stamps, `Instant::elapsed`
as truncated subtraction from the current time.
-/

namespace Chat

/-- `enum Kind` (src/reader.rs): kind of a message. -/
inductive Kind where
  | Data
  | Response
  | Wrong
deriving DecidableEq, Repr

/-- `impl Into<u8> for Kind` (src/reader.rs). -/
def Kind.toU8 : Kind → Nat
  | .Data => 0
  | .Response => 1
  | .Wrong => 2

/-- `impl From<u8> for Kind` (src/reader.rs). -/
def Kind.fromU8 : Nat → Kind
  | 0 => .Data
  | 1 => .Response
  | _ => .Wrong

/-- `enum ReaderError` (src/reader.rs).  The `IO` variant wraps an
underlying transport error and carries no protocol content; the decoder
logic we model never produces it, so it is omitted. -/
inductive ReaderError where
  | WrongKindFlag
  | WrongLengthFlag
  | IncorrectSize
deriving DecidableEq, Repr

/-- `MESSAGE_MAX_LEN` (src/main.rs): maximum allowed message length,
`0x0001_0000_0000_0000 = 2^48`. -/
def MESSAGE_MAX_LEN : Nat := 0x0001000000000000

/-- Big-endian byte string of `n`, `w` bytes wide: the semantics of the
`put_u8` / `put_u16_be` / `put_u32_be` / `put_u64_be` writers used by
`to_binary` (most significant byte first). -/
def beBytes : Nat → Nat → List Nat
  | 0, _ => []
  | w + 1, n => beBytes w (n / 256) ++ [n % 256]

/-- `NetworkEndian::read_uint(buf, nbytes)` (byteorder): big-endian
unsigned integer read from the first `nbytes` bytes of `buf`. -/
def readUintBE (buf : List Nat) (nbytes : Nat) : Nat :=
  (buf.take nbytes).foldl (fun acc b => acc * 256 + b) 0

/-- `to_binary` (src/reader.rs): build a ready-to-send frame
(header followed by the payload).  The numeric casts `len as u8`,
`len as u16`, `len as u32`, `len as u64` are the `% 2^8,…,2^64`
reductions. -/
def to_binary (data : List Nat) (kind : Kind) : List Nat :=
  let kind_flag : Nat := kind.toU8
  let len := data.length
  let header : List Nat :=
    if len ≤ 0xFF then
      [kind_flag ||| 0x10, len % 2 ^ 8]
    else if len ≤ 0xFFFF then
      (kind_flag ||| 0x20) :: beBytes 2 (len % 2 ^ 16)
    else if len ≤ 0xFFFFFFFF then
      (kind_flag ||| 0x40) :: beBytes 4 (len % 2 ^ 32)
    else
      (kind_flag ||| 0x80) :: beBytes 8 (len % 2 ^ 64)
  header ++ data

/-- `struct PayloadInfo` (src/reader.rs): header information of a message. -/
structure PayloadInfo where
  kind : Kind
  received_len : Nat
  bytes_capacity : Nat
  payload_len : Nat
  header_len : Nat
deriving DecidableEq, Repr

/-- The mutable state of the `Reader` (src/reader.rs): the contents and the
capacity of the `pending : BytesMut` buffer.  (The socket handle is
external; bytes read from it are supplied to `Reader.feed`.) -/
structure ReaderState where
  pending : List Nat
  cap : Nat
deriving DecidableEq, Repr

/-- `Reader::new`: `BytesMut::new()` is empty with zero capacity. -/
def ReaderState.new : ReaderState := ⟨[], 0⟩

/-- `BytesMut::reserve(additional)`: capacity becomes at least
`len + additional` (minimal-growth model). -/
def ReaderState.reserve (st : ReaderState) (additional : Nat) : ReaderState :=
  { st with cap := max st.cap (st.pending.length + additional) }

/-- `Reader::parse_header` (src/reader.rs): reads byte 0 (kind nibble and
length-flag nibble), then the big-endian length field of the selected
width.  `.ok none` is the "not enough bytes yet" outcome. -/
def Reader.parse_header (st : ReaderState) : Except ReaderError (Option PayloadInfo) :=
  match st.pending with
  | [] => .ok none
  | b0 :: rest =>
    let received_len := rest.length + 1
    let bytes_capacity := st.cap
    let len_flag := b0 &&& 0xF0
    let kind := Kind.fromU8 (b0 &&& 0x0F)
    if kind = Kind.Wrong then .error .WrongKindFlag
    else
      let widths : Option (Nat × Nat) :=
        if len_flag = 0x10 then some (1, 2)
        else if len_flag = 0x20 then some (2, 3)
        else if len_flag = 0x40 then some (4, 5)
        else if len_flag = 0x80 then some (8, 9)
        else none
      match widths with
      | none => .error .WrongLengthFlag
      | some (uint_len, header_len) =>
        if received_len < header_len then .ok none
        else
          let payload_len := readUintBE rest uint_len
          .ok (some ⟨kind, received_len, bytes_capacity, payload_len, header_len⟩)

/-- `struct Msg` (src/peer.rs): a parsed message — the raw bytes including
the header, the kind, and the header length. -/
structure Msg where
  bytes : List Nat
  kind : Kind
  header_len : Nat
deriving DecidableEq, Repr

/-- `Msg::message` (src/peer.rs): the message without the header. -/
def Msg.message (m : Msg) : List Nat := m.bytes.drop m.header_len

/-- Outcome of one call to `Reader::parse` / one `poll` read event:
`Poll<Option<Msg>, ReaderError>` with the end-of-stream case handled by
the caller. -/
inductive ParseResult where
  | notReady
  | ready (m : Msg)
  | error (e : ReaderError)
deriving DecidableEq, Repr

/-- `Reader::parse` (src/reader.rs): decode the header, then compare the
buffered length against `header_len + payload_len`; too few bytes waits
(reserving capacity), too many bytes or an oversized declared length is
`IncorrectSize`, an exact match takes the whole buffer as one `Msg` and
reserves the default capacity of 64. -/
def Reader.parse (st : ReaderState) : ParseResult × ReaderState :=
  match Reader.parse_header st with
  | .error e => (.error e, st)
  | .ok none => (.notReady, st)
  | .ok (some info) =>
    let data_len := info.header_len + info.payload_len
    if info.received_len < data_len then
      if info.bytes_capacity < data_len then
        (.notReady, st.reserve (data_len + 1 - info.bytes_capacity))
      else
        (.notReady, st)
    else if data_len < info.received_len ∨ MESSAGE_MAX_LEN < info.payload_len then
      (.error .IncorrectSize, st)
    else
      (.ready ⟨st.pending, info.kind, info.header_len⟩,
       ⟨[], max (st.cap - st.pending.length) 64⟩)

/-- One iteration of `<Reader as Stream>::poll` (src/reader.rs) in which
`read_buf` appended the nonempty `chunk` to the pending buffer: run
`parse`; on a parse error the buffered bytes are dropped
(`pending.take()`) and the default capacity 64 reserved before the error
is returned. -/
def Reader.feed (st : ReaderState) (chunk : List Nat) : ParseResult × ReaderState :=
  let st1 : ReaderState :=
    ⟨st.pending ++ chunk, max st.cap (st.pending.length + chunk.length)⟩
  match Reader.parse st1 with
  | (.error e, st2) => (.error e, ⟨[], max (st2.cap - st2.pending.length) 64⟩)
  | x => x

/-- Feed a sequence of chunks (successive `poll` read events), collecting
the outcome of each. -/
def Reader.feedAll (st : ReaderState) (chunks : List (List Nat)) :
    List ParseResult × ReaderState :=
  match chunks with
  | [] => ([], st)
  | c :: cs =>
    let r := Reader.feed st c
    let rs := Reader.feedAll r.2 cs
    (r.1 :: rs.1, rs.2)

/-- The length-field width `to_binary` selects for a payload length
(1, 2, 4 or 8 bytes), read off the `match data.len()` arms. -/
def widthOf (len : Nat) : Nat :=
  if len ≤ 0xFF then 1
  else if len ≤ 0xFFFF then 2
  else if len ≤ 0xFFFFFFFF then 4
  else 8

/-- Total header length (flag byte plus length field) for a payload length. -/
def headerLen (len : Nat) : Nat := widthOf len + 1

/-- The fixed acknowledgement payload `b"message received"` (src/peer.rs). -/
def messageReceived : List Nat :=
  [109, 101, 115, 115, 97, 103, 101, 32, 114, 101, 99, 101, 105, 118, 101, 100]

/-- Observable side effects of the peer's handlers (src/peer.rs):
`write` is `writer.write(..)` on the socket's write half, `display` is the
dispatch of a received payload to the configured display policy,
`report` is the round-trip report of a `Response` payload together with
the elapsed delay, `close` is connection shutdown (never produced by the
stream handler itself). -/
inductive Effect where
  | write (bytes : List Nat)
  | display (payload : List Nat)
  | report (payload : List Nat) (delay : Nat)
  | close
deriving DecidableEq, Repr

/-- The peer state relevant to the handlers (src/peer.rs): the
`delays : VecDeque<Instant>` queue of send time stamps, oldest first. -/
structure PeerState where
  delays : List Nat
deriving DecidableEq, Repr

/-- `<Peer as StreamHandler<Msg, ReaderError>>::handle` (src/peer.rs):
on `Data`, write the fixed `Response` acknowledgement frame, then dispatch
the payload to the display policy; on `Response`, pop the oldest pending
time stamp (elapsed defaults to zero when the queue is empty) and report
the payload with the elapsed delay; on `Wrong`, do nothing.
`now` is the current instant. -/
def Peer.handleMsg (st : PeerState) (msg : Msg) (now : Nat) : PeerState × List Effect :=
  match msg.kind with
  | .Data =>
    (st, [.write (to_binary messageReceived .Response), .display msg.message])
  | .Response =>
    match st.delays with
    | [] => (⟨[]⟩, [.report msg.message 0])
    | t :: rest => (⟨rest⟩, [.report msg.message (now - t)])
  | .Wrong => (st, [])

/-- `<Peer as Handler<UserInput>>::handle` (src/peer.rs): push the current
instant onto the delays queue and write the payload as a `Data` frame. -/
def Peer.handleUserInput (st : PeerState) (input : List Nat) (now : Nat) :
    PeerState × List Effect :=
  (⟨st.delays ++ [now]⟩, [.write (to_binary input .Data)])

/-! ### Groundwork: big-endian encoding and the shape of encoded frames -/

lemma length_beBytes (w n : Nat) : (beBytes w n).length = w := by
  induction w generalizing n with
  | zero => rfl
  | succ w ih => simp [beBytes, ih]

lemma foldl_beBytes (w n acc : Nat) :
    (beBytes w n).foldl (fun a b => a * 256 + b) acc = acc * 256 ^ w + n % 256 ^ w := by
  induction w generalizing n acc with
  | zero => simp [beBytes, Nat.mod_one]
  | succ w ih =>
    rw [beBytes, List.foldl_append, ih]
    have h : n % 256 ^ (w + 1) = n % 256 + 256 * (n / 256 % 256 ^ w) := by
      rw [pow_succ, mul_comm, Nat.mod_mul]
    simp only [List.foldl_cons, List.foldl_nil]
    rw [h, pow_succ]
    ring

lemma beBytes_mod (w n : Nat) : beBytes w (n % 256 ^ w) = beBytes w n := by
  induction w generalizing n with
  | zero => rfl
  | succ w ih =>
    rw [beBytes, beBytes]
    have hdiv : n % 256 ^ (w + 1) / 256 = n / 256 % 256 ^ w := by
      rw [pow_succ, mul_comm, Nat.mod_mul_right_div_self]
    have hmod : n % 256 ^ (w + 1) % 256 = n % 256 :=
      Nat.mod_mod_of_dvd n (dvd_pow_self 256 (Nat.succ_ne_zero w))
    rw [hdiv, hmod, ih]

lemma readUintBE_beBytes_append (w n : Nat) (rest : List Nat) (hn : n < 256 ^ w) :
    readUintBE (beBytes w n ++ rest) w = n := by
  have htake : (beBytes w n ++ rest).take w = beBytes w n := by
    have h := List.take_left (beBytes w n) rest
    rwa [length_beBytes] at h
  rw [readUintBE, htake, foldl_beBytes]
  simp [Nat.mod_eq_of_lt hn]

lemma readUintBE_beBytes (w n : Nat) (hn : n < 256 ^ w) :
    readUintBE (beBytes w n) w = n := by
  have := readUintBE_beBytes_append w n [] hn
  simpa using this

lemma Kind.fromU8_toU8 (k : Kind) (hk : k ≠ .Wrong) : Kind.fromU8 k.toU8 = k := by
  cases k with
  | Data => rfl
  | Response => rfl
  | Wrong => exact absurd rfl hk

lemma Kind.fromU8_of_ne (b : Nat) (h0 : b ≠ 0) (h1 : b ≠ 1) :
    Kind.fromU8 b = .Wrong := by
  match b with
  | 0 => exact absurd rfl h0
  | 1 => exact absurd rfl h1
  | b + 2 => rfl

lemma toU8_lt_two (k : Kind) (hk : k ≠ .Wrong) : k.toU8 = 0 ∨ k.toU8 = 1 := by
  cases k with
  | Data => exact Or.inl rfl
  | Response => exact Or.inr rfl
  | Wrong => exact absurd rfl hk

lemma widthOf_mem (len : Nat) :
    widthOf len = 1 ∨ widthOf len = 2 ∨ widthOf len = 4 ∨ widthOf len = 8 := by
  unfold widthOf
  split_ifs <;> simp

lemma lt_pow_widthOf (len : Nat) (h : len < 2 ^ 64) : len < 256 ^ widthOf len := by
  unfold widthOf
  split_ifs with h1 h2 h3 <;> norm_num <;> omega

/-- Every `to_binary` frame is one flag byte, the big-endian length field
of the selected width, then the payload. -/
lemma to_binary_shape (p : List Nat) (k : Kind) :
    to_binary p k =
      (k.toU8 ||| 16 * widthOf p.length) ::
        (beBytes (widthOf p.length) p.length ++ p) := by
  have hb1 : ∀ m : Nat, beBytes 1 m = [m % 256] := fun m => rfl
  by_cases h1 : p.length ≤ 0xFF
  · have hm : p.length % 2 ^ 8 = p.length :=
      Nat.mod_eq_of_lt (lt_of_le_of_lt h1 (by norm_num))
    simp [to_binary, widthOf, h1, hb1, hm]
  · by_cases h2 : p.length ≤ 0xFFFF
    · have h16 : (2 : Nat) ^ 16 = 256 ^ 2 := by norm_num
      simp only [to_binary, widthOf, h1, h2, if_true, if_false, ite_true, ite_false,
        h16, beBytes_mod]
      simp
    · by_cases h3 : p.length ≤ 0xFFFFFFFF
      · have h32 : (2 : Nat) ^ 32 = 256 ^ 4 := by norm_num
        simp only [to_binary, widthOf, h1, h2, h3, if_true, if_false, ite_true, ite_false,
          h32, beBytes_mod]
        simp
      · have h64 : (2 : Nat) ^ 64 = 256 ^ 8 := by norm_num
        simp only [to_binary, widthOf, h1, h2, h3, if_true, if_false, ite_true, ite_false,
          h64, beBytes_mod]
        simp

lemma length_to_binary (p : List Nat) (k : Kind) :
    (to_binary p k).length = 1 + widthOf p.length + p.length := by
  rw [to_binary_shape]
  simp [length_beBytes]
  omega

/-! ### Header parsing on well-formed frames -/

/-- A well-formed header byte decomposes into its kind and length nibbles. -/
lemma flag_byte_nibbles (t w : Nat) (ht : t = 0 ∨ t = 1)
    (hw : w = 1 ∨ w = 2 ∨ w = 4 ∨ w = 8) :
    (t ||| 16 * w) &&& 0x0F = t ∧ (t ||| 16 * w) &&& 0xF0 = 16 * w := by
  rcases ht with rfl | rfl <;> rcases hw with rfl | rfl | rfl | rfl <;>
    exact ⟨by decide, by decide⟩

/-- `parse_header` on a buffer holding a complete well-formed header
(flag byte, full big-endian length field, then anything): succeeds and
reports the declared length, the header length `w + 1`, and the kind. -/
lemma parse_header_complete (t w n : Nat) (tail : List Nat) (cap : Nat)
    (ht : t = 0 ∨ t = 1) (hw : w = 1 ∨ w = 2 ∨ w = 4 ∨ w = 8)
    (hn : n < 256 ^ w) :
    Reader.parse_header ⟨(t ||| 16 * w) :: (beBytes w n ++ tail), cap⟩ =
      .ok (some ⟨Kind.fromU8 t, w + tail.length + 1, cap, n, w + 1⟩) := by
  have hb := flag_byte_nibbles t w ht hw
  have hkind : ¬ (Kind.fromU8 t = Kind.Wrong) := by
    rcases ht with rfl | rfl <;> decide
  have hread := readUintBE_beBytes_append w n tail hn
  have hlen : (beBytes w n ++ tail).length = w + tail.length := by
    simp [length_beBytes]
  simp only [Reader.parse_header, hb.1, hb.2, hlen]
  rw [if_neg hkind]
  rcases hw with rfl | rfl | rfl | rfl
  · rw [if_pos (show (16 * 1 : Nat) = 0x10 by norm_num)]
    dsimp only
    rw [if_neg (show ¬ (1 + tail.length + 1 < 2) by omega), hread]
  · rw [if_neg (show ¬ (16 * 2 : Nat) = 0x10 by norm_num),
      if_pos (show (16 * 2 : Nat) = 0x20 by norm_num)]
    dsimp only
    rw [if_neg (show ¬ (2 + tail.length + 1 < 3) by omega), hread]
  · rw [if_neg (show ¬ (16 * 4 : Nat) = 0x10 by norm_num),
      if_neg (show ¬ (16 * 4 : Nat) = 0x20 by norm_num),
      if_pos (show (16 * 4 : Nat) = 0x40 by norm_num)]
    dsimp only
    rw [if_neg (show ¬ (4 + tail.length + 1 < 5) by omega), hread]
  · rw [if_neg (show ¬ (16 * 8 : Nat) = 0x10 by norm_num),
      if_neg (show ¬ (16 * 8 : Nat) = 0x20 by norm_num),
      if_neg (show ¬ (16 * 8 : Nat) = 0x40 by norm_num),
      if_pos (show (16 * 8 : Nat) = 0x80 by norm_num)]
    dsimp only
    rw [if_neg (show ¬ (8 + tail.length + 1 < 9) by omega), hread]

/-- `parse_header` when the buffer holds the flag byte but not yet the
whole length field: `Incomplete` (no error, no header). -/
lemma parse_header_incomplete (t w : Nat) (rest : List Nat) (cap : Nat)
    (ht : t = 0 ∨ t = 1) (hw : w = 1 ∨ w = 2 ∨ w = 4 ∨ w = 8)
    (hrest : rest.length < w) :
    Reader.parse_header ⟨(t ||| 16 * w) :: rest, cap⟩ = .ok none := by
  have hb := flag_byte_nibbles t w ht hw
  have hkind : ¬ (Kind.fromU8 t = Kind.Wrong) := by
    rcases ht with rfl | rfl <;> decide
  simp only [Reader.parse_header, hb.1, hb.2]
  rw [if_neg hkind]
  rcases hw with rfl | rfl | rfl | rfl
  · rw [if_pos (show (16 * 1 : Nat) = 0x10 by norm_num)]
    dsimp only
    rw [if_pos (show rest.length + 1 < 2 by omega)]
  · rw [if_neg (show ¬ (16 * 2 : Nat) = 0x10 by norm_num),
      if_pos (show (16 * 2 : Nat) = 0x20 by norm_num)]
    dsimp only
    rw [if_pos (show rest.length + 1 < 3 by omega)]
  · rw [if_neg (show ¬ (16 * 4 : Nat) = 0x10 by norm_num),
      if_neg (show ¬ (16 * 4 : Nat) = 0x20 by norm_num),
      if_pos (show (16 * 4 : Nat) = 0x40 by norm_num)]
    dsimp only
    rw [if_pos (show rest.length + 1 < 5 by omega)]
  · rw [if_neg (show ¬ (16 * 8 : Nat) = 0x10 by norm_num),
      if_neg (show ¬ (16 * 8 : Nat) = 0x20 by norm_num),
      if_neg (show ¬ (16 * 8 : Nat) = 0x40 by norm_num),
      if_pos (show (16 * 8 : Nat) = 0x80 by norm_num)]
    dsimp only
    rw [if_pos (show rest.length + 1 < 9 by omega)]

/-! ### `Reader.parse` on prefixes, exact frames, and overfull buffers -/

/-- A strict prefix of a well-formed frame parses to `NotReady`, leaving
the buffered bytes in place (only capacity may grow). -/
lemma parse_proper_front (t w n : Nat) (payload pre suf : List Nat) (cap : Nat)
    (ht : t = 0 ∨ t = 1) (hw : w = 1 ∨ w = 2 ∨ w = 4 ∨ w = 8)
    (hn : n < 256 ^ w) (hpl : payload.length = n)
    (hsplit : pre ++ suf = (t ||| 16 * w) :: (beBytes w n ++ payload))
    (hsuf : suf ≠ []) :
    ∃ c', Reader.parse ⟨pre, cap⟩ = (.notReady, ⟨pre, c'⟩) := by
  cases pre with
  | nil =>
    refine ⟨cap, ?_⟩
    simp [Reader.parse, Reader.parse_header]
  | cons b0 pre' =>
    have hb0 : b0 = t ||| 16 * w := by
      have := congrArg (fun l => l.headD 0) hsplit
      simpa using this
    have htl : pre' ++ suf = beBytes w n ++ payload := by
      have := congrArg List.tail hsplit
      simpa [hb0] using this
    subst hb0
    by_cases hlen : pre'.length < w
    · refine ⟨cap, ?_⟩
      have hph := parse_header_incomplete t w pre' cap ht hw hlen
      simp [Reader.parse, hph]
    · push_neg at hlen
      have hsplit2 : pre'.take w ++ (pre'.drop w ++ suf) = beBytes w n ++ payload := by
        rw [← List.append_assoc, List.take_append_drop]
        exact htl
      have hlen2 : (pre'.take w).length = (beBytes w n).length := by
        simp [length_beBytes, List.length_take]
        omega
      obtain ⟨hfst, hsnd⟩ := List.append_inj hsplit2 hlen2
      have hpre' : pre' = beBytes w n ++ pre'.drop w := by
        conv_lhs => rw [← List.take_append_drop w pre']
        rw [hfst]
      have htail_lt : (pre'.drop w).length < n := by
        have : (pre'.drop w).length + suf.length = payload.length := by
          have := congrArg List.length hsnd
          simpa using this
        have hs : 0 < suf.length := List.length_pos.mpr hsuf
        omega
      have hph := parse_header_complete t w n (pre'.drop w) cap ht hw hn
      rw [← hpre'] at hph
      have hrecv : w + (pre'.drop w).length + 1 < (w + 1) + n := by omega
      by_cases hcap : cap < (w + 1) + n
      · refine ⟨max cap (pre'.length + 1 + ((w + 1) + n + 1 - cap)), ?_⟩
        simp only [Reader.parse, hph]
        rw [if_pos hrecv, if_pos hcap]
        simp [ReaderState.reserve]
      · refine ⟨cap, ?_⟩
        simp only [Reader.parse, hph]
        rw [if_pos hrecv, if_neg hcap]

/-- A buffer holding exactly one well-formed frame with an in-bounds
declared length parses to one `Msg` carrying the whole frame; the buffer
is taken and the default capacity 64 reserved. -/
lemma parse_exact (t w n : Nat) (payload : List Nat) (cap : Nat)
    (ht : t = 0 ∨ t = 1) (hw : w = 1 ∨ w = 2 ∨ w = 4 ∨ w = 8)
    (hn : n < 256 ^ w) (hpl : payload.length = n)
    (hmax : ¬ MESSAGE_MAX_LEN < n) :
    Reader.parse ⟨(t ||| 16 * w) :: (beBytes w n ++ payload), cap⟩ =
      (.ready ⟨(t ||| 16 * w) :: (beBytes w n ++ payload), Kind.fromU8 t, w + 1⟩,
       ⟨[], max (cap - (w + n + 1)) 64⟩) := by
  have hph := parse_header_complete t w n payload cap ht hw hn
  simp only [Reader.parse, hph]
  rw [if_neg (show ¬ (w + payload.length + 1 < (w + 1) + n) by omega)]
  rw [if_neg (show ¬ ((w + 1) + n < w + payload.length + 1 ∨ MESSAGE_MAX_LEN < n) by
    push_neg
    exact ⟨by omega, by omega⟩)]
  have hplen : ((t ||| 16 * w) :: (beBytes w n ++ payload)).length = w + n + 1 := by
    simp [length_beBytes]
    omega
  rw [hplen]

/-- A buffer holding a well-formed frame plus at least one extra byte
parses to `IncorrectSize` (the framing-violation branch), with the state
untouched by `parse` itself. -/
lemma parse_overfull (t w n : Nat) (payload extra : List Nat) (cap : Nat)
    (ht : t = 0 ∨ t = 1) (hw : w = 1 ∨ w = 2 ∨ w = 4 ∨ w = 8)
    (hn : n < 256 ^ w) (hpl : payload.length = n) (hextra : extra ≠ []) :
    Reader.parse ⟨(t ||| 16 * w) :: (beBytes w n ++ (payload ++ extra)), cap⟩ =
      (.error .IncorrectSize,
       ⟨(t ||| 16 * w) :: (beBytes w n ++ (payload ++ extra)), cap⟩) := by
  have hph := parse_header_complete t w n (payload ++ extra) cap ht hw hn
  have hex : 0 < extra.length := List.length_pos.mpr hextra
  simp only [Reader.parse, hph]
  rw [if_neg (show ¬ (w + (payload ++ extra).length + 1 < (w + 1) + n) by
    simp only [List.length_append]
    omega)]
  rw [if_pos (Or.inl (show (w + 1) + n < w + (payload ++ extra).length + 1 by
    simp only [List.length_append]
    omega))]

/-! ### Unfolding `Reader.feed` by the outcome of `parse` -/

lemma feed_of_parse_notReady (st : ReaderState) (chunk : List Nat) (st2 : ReaderState)
    (h : Reader.parse ⟨st.pending ++ chunk, max st.cap (st.pending.length + chunk.length)⟩ =
      (.notReady, st2)) :
    Reader.feed st chunk = (.notReady, st2) := by
  simp [Reader.feed, h]

lemma feed_of_parse_ready (st : ReaderState) (chunk : List Nat) (m : Msg) (st2 : ReaderState)
    (h : Reader.parse ⟨st.pending ++ chunk, max st.cap (st.pending.length + chunk.length)⟩ =
      (.ready m, st2)) :
    Reader.feed st chunk = (.ready m, st2) := by
  simp [Reader.feed, h]

lemma feed_of_parse_error (st : ReaderState) (chunk : List Nat) (e : ReaderError)
    (st2 : ReaderState)
    (h : Reader.parse ⟨st.pending ++ chunk, max st.cap (st.pending.length + chunk.length)⟩ =
      (.error e, st2)) :
    Reader.feed st chunk = (.error e, ⟨[], max (st2.cap - st2.pending.length) 64⟩) := by
  simp [Reader.feed, h]

/-! ### Feeding whole encoded frames -/

lemma max_len_eq : MESSAGE_MAX_LEN = 2 ^ 48 := by
  rw [MESSAGE_MAX_LEN]
  norm_num

/-- Feeding one whole encoded frame to a reader whose buffer is empty
yields exactly the frame as one message. -/
lemma feed_whole_frame (p : List Nat) (k : Kind) (c : Nat)
    (hk : k ≠ .Wrong) (hp : p.length ≤ 2 ^ 48) :
    Reader.feed ⟨[], c⟩ (to_binary p k) =
      (.ready ⟨to_binary p k, k, headerLen p.length⟩,
       ⟨[], max (max c (to_binary p k).length - (to_binary p k).length) 64⟩) := by
  have hn : p.length < 256 ^ widthOf p.length :=
    lt_pow_widthOf p.length (lt_of_le_of_lt hp (by norm_num))
  have hmax : ¬ MESSAGE_MAX_LEN < p.length := by
    rw [max_len_eq]
    omega
  have hpe := parse_exact k.toU8 (widthOf p.length) p.length p
    (max c (to_binary p k).length)
    (toU8_lt_two k hk) (widthOf_mem p.length) hn rfl hmax
  rw [← to_binary_shape, Kind.fromU8_toU8 k hk] at hpe
  have hL : (to_binary p k).length = widthOf p.length + p.length + 1 := by
    rw [length_to_binary]
    omega
  rw [← hL] at hpe
  simp only [Reader.feed, List.nil_append, List.length_nil, Nat.zero_add, zero_add,
    hpe, headerLen]

/-- The payload of the `Msg` built from a whole frame is the original
payload: dropping the header recovers `p`. -/
lemma message_of_frame (p : List Nat) (k : Kind) :
    (⟨to_binary p k, k, headerLen p.length⟩ : Msg).message = p := by
  rw [Msg.message, to_binary_shape, headerLen]
  have hdrop := List.drop_left (beBytes (widthOf p.length) p.length) p
  rw [length_beBytes] at hdrop
  simpa [List.drop_succ_cons] using hdrop

/-! ### Claims -/

/-- Claim C1 (round-trip law): for every payload `p` of length at most
`2^48` and every kind `k ∈ {Data, Response}`, feeding the frame
`to_binary p k` to a fresh stream decoder yields exactly one message
whose kind is `k` and whose payload (`Msg::message`) is `p`. -/
theorem claim_C1 (p : List Nat) (k : Kind) (hk : k ≠ .Wrong)
    (hp : p.length ≤ 2 ^ 48) :
    (Reader.feed ReaderState.new (to_binary p k)).1 =
      .ready ⟨to_binary p k, k, headerLen p.length⟩ ∧
    (⟨to_binary p k, k, headerLen p.length⟩ : Msg).kind = k ∧
    (⟨to_binary p k, k, headerLen p.length⟩ : Msg).message = p := by
  refine ⟨?_, rfl, message_of_frame p k⟩
  simp only [ReaderState.new]
  rw [feed_whole_frame p k 0 hk hp]

/-- Witness for C1 at the concrete payload `b"hello"` with kind `Data`. -/
theorem claim_C1_witness :
    (Reader.feed ReaderState.new (to_binary [104, 101, 108, 108, 111] .Data)).1 =
      .ready ⟨to_binary [104, 101, 108, 108, 111] .Data, .Data,
        headerLen ([104, 101, 108, 108, 111] : List Nat).length⟩ ∧
    (⟨to_binary [104, 101, 108, 108, 111] .Data, .Data,
        headerLen ([104, 101, 108, 108, 111] : List Nat).length⟩ : Msg).kind = .Data ∧
    (⟨to_binary [104, 101, 108, 108, 111] .Data, .Data,
        headerLen ([104, 101, 108, 108, 111] : List Nat).length⟩ : Msg).message =
      [104, 101, 108, 108, 111] :=
  claim_C1 [104, 101, 108, 108, 111] .Data (by decide) (by decide)

/-- Claim C6 (header-width selection is exact): `to_binary` uses a 1-byte
big-endian length field with flag `0x10` for payload lengths `0..=255`, a
2-byte field with flag `0x20` for `256..=65535`, a 4-byte field with flag
`0x40` for `65536..=4294967295`, and an 8-byte field with flag `0x80` for
larger lengths (below the `usize` bound `2^64`); byte 0 is the kind tag
OR'd with the length flag, and the length field read back big-endian
(`NetworkEndian::read_uint`) is the payload length. -/
theorem claim_C6 (p : List Nat) (k : Kind) :
    (p.length ≤ 255 → ∃ field, to_binary p k = (k.toU8 ||| 0x10) :: (field ++ p) ∧
      field.length = 1 ∧ readUintBE field 1 = p.length) ∧
    (256 ≤ p.length → p.length ≤ 65535 →
      ∃ field, to_binary p k = (k.toU8 ||| 0x20) :: (field ++ p) ∧
      field.length = 2 ∧ readUintBE field 2 = p.length) ∧
    (65536 ≤ p.length → p.length ≤ 4294967295 →
      ∃ field, to_binary p k = (k.toU8 ||| 0x40) :: (field ++ p) ∧
      field.length = 4 ∧ readUintBE field 4 = p.length) ∧
    (4294967296 ≤ p.length → p.length < 2 ^ 64 →
      ∃ field, to_binary p k = (k.toU8 ||| 0x80) :: (field ++ p) ∧
      field.length = 8 ∧ readUintBE field 8 = p.length) := by
  have hshape := to_binary_shape p k
  refine ⟨fun h1 => ?_, fun h1 h2 => ?_, fun h1 h2 => ?_, fun h1 h2 => ?_⟩
  · have hwof : widthOf p.length = 1 := by
      unfold widthOf
      rw [if_pos (by omega)]
    refine ⟨beBytes 1 p.length, ?_, length_beBytes 1 p.length, ?_⟩
    · rw [hshape, hwof]
    · exact readUintBE_beBytes 1 p.length (by norm_num; omega)
  · have hwof : widthOf p.length = 2 := by
      unfold widthOf
      rw [if_neg (by omega), if_pos (by omega)]
    refine ⟨beBytes 2 p.length, ?_, length_beBytes 2 p.length, ?_⟩
    · rw [hshape, hwof]
    · exact readUintBE_beBytes 2 p.length (by norm_num; omega)
  · have hwof : widthOf p.length = 4 := by
      unfold widthOf
      rw [if_neg (by omega), if_neg (by omega), if_pos (by omega)]
    refine ⟨beBytes 4 p.length, ?_, length_beBytes 4 p.length, ?_⟩
    · rw [hshape, hwof]
    · exact readUintBE_beBytes 4 p.length (by norm_num; omega)
  · have hwof : widthOf p.length = 8 := by
      unfold widthOf
      rw [if_neg (by omega), if_neg (by omega), if_neg (by omega)]
    refine ⟨beBytes 8 p.length, ?_, length_beBytes 8 p.length, ?_⟩
    · rw [hshape, hwof]
    · exact readUintBE_beBytes 8 p.length (by norm_num; omega)

/-- Witness for C6: all four width ranges exercised at concrete boundary
payloads (lengths 255, 256, 65536 and 4294967296). -/
theorem claim_C6_witness :
    (∃ field, to_binary (List.replicate 255 7) .Data =
      (Kind.toU8 .Data ||| 0x10) :: (field ++ List.replicate 255 7) ∧
      field.length = 1 ∧ readUintBE field 1 = (List.replicate 255 7).length) ∧
    (∃ field, to_binary (List.replicate 256 7) .Data =
      (Kind.toU8 .Data ||| 0x20) :: (field ++ List.replicate 256 7) ∧
      field.length = 2 ∧ readUintBE field 2 = (List.replicate 256 7).length) ∧
    (∃ field, to_binary (List.replicate 65536 7) .Response =
      (Kind.toU8 .Response ||| 0x40) :: (field ++ List.replicate 65536 7) ∧
      field.length = 4 ∧ readUintBE field 4 = (List.replicate 65536 7).length) ∧
    (∃ field, to_binary (List.replicate 4294967296 7) .Response =
      (Kind.toU8 .Response ||| 0x80) :: (field ++ List.replicate 4294967296 7) ∧
      field.length = 8 ∧ readUintBE field 8 = (List.replicate 4294967296 7).length) := by
  refine ⟨(claim_C6 (List.replicate 255 7) .Data).1
      (by simp only [List.length_replicate, le_refl]),
    (claim_C6 (List.replicate 256 7) .Data).2.1
      (by simp only [List.length_replicate, le_refl])
      (by simp only [List.length_replicate]; norm_num),
    (claim_C6 (List.replicate 65536 7) .Response).2.2.1
      (by simp only [List.length_replicate, le_refl])
      (by simp only [List.length_replicate]; norm_num),
    (claim_C6 (List.replicate 4294967296 7) .Response).2.2.2
      (by simp only [List.length_replicate, le_refl])
      (by simp only [List.length_replicate]; norm_num)⟩

/-- Claim C5 (header classification): on a non-empty buffer,
`parse_header` rejects a kind nibble outside `{0,1}` with
`WrongKindFlag`; with a good kind nibble it rejects a length-flag nibble
outside `{0x10,0x20,0x40,0x80}` with `WrongLengthFlag`; with a fully
valid byte 0 but fewer buffered bytes than the selected header width it
returns `Incomplete` (`.ok none` — no error, no header). -/
theorem claim_C5 (b0 : Nat) (rest : List Nat) (cap : Nat) :
    ((b0 &&& 0x0F ≠ 0 ∧ b0 &&& 0x0F ≠ 1) →
      Reader.parse_header ⟨b0 :: rest, cap⟩ = .error .WrongKindFlag) ∧
    ((b0 &&& 0x0F = 0 ∨ b0 &&& 0x0F = 1) →
      (b0 &&& 0xF0 ≠ 0x10 ∧ b0 &&& 0xF0 ≠ 0x20 ∧ b0 &&& 0xF0 ≠ 0x40 ∧
        b0 &&& 0xF0 ≠ 0x80) →
      Reader.parse_header ⟨b0 :: rest, cap⟩ = .error .WrongLengthFlag) ∧
    (∀ w : Nat, (b0 &&& 0x0F = 0 ∨ b0 &&& 0x0F = 1) →
      ((b0 &&& 0xF0 = 0x10 ∧ w = 1) ∨ (b0 &&& 0xF0 = 0x20 ∧ w = 2) ∨
       (b0 &&& 0xF0 = 0x40 ∧ w = 4) ∨ (b0 &&& 0xF0 = 0x80 ∧ w = 8)) →
      rest.length < w →
      Reader.parse_header ⟨b0 :: rest, cap⟩ = .ok none) := by
  refine ⟨fun h => ?_, fun hk hf => ?_, fun w hk hf hlen => ?_⟩
  · simp only [Reader.parse_header]
    rw [if_pos (Kind.fromU8_of_ne (b0 &&& 0x0F) h.1 h.2)]
  · have hkind : ¬ (Kind.fromU8 (b0 &&& 0x0F) = Kind.Wrong) := by
      rcases hk with h | h <;> rw [h] <;> decide
    simp only [Reader.parse_header]
    rw [if_neg hkind, if_neg hf.1, if_neg hf.2.1, if_neg hf.2.2.1, if_neg hf.2.2.2]
  · have hkind : ¬ (Kind.fromU8 (b0 &&& 0x0F) = Kind.Wrong) := by
      rcases hk with h | h <;> rw [h] <;> decide
    simp only [Reader.parse_header]
    rw [if_neg hkind]
    rcases hf with ⟨hf, rfl⟩ | ⟨hf, rfl⟩ | ⟨hf, rfl⟩ | ⟨hf, rfl⟩
    · rw [if_pos hf]
      dsimp only
      rw [if_pos (by omega)]
    · rw [if_neg (by rw [hf]; norm_num), if_pos hf]
      dsimp only
      rw [if_pos (by omega)]
    · rw [if_neg (by rw [hf]; norm_num), if_neg (by rw [hf]; norm_num), if_pos hf]
      dsimp only
      rw [if_pos (by omega)]
    · rw [if_neg (by rw [hf]; norm_num), if_neg (by rw [hf]; norm_num),
        if_neg (by rw [hf]; norm_num), if_pos hf]
      dsimp only
      rw [if_pos (by omega)]

/-- Witness for C5: byte `0x15` (kind nibble 5) is a kind-flag error, byte
`0x31` (length nibble 3) is a length-flag error, and byte `0x20` alone
(2-byte length field, only 1 byte buffered) is incomplete. -/
theorem claim_C5_witness :
    Reader.parse_header ⟨[0x15], 0⟩ = .error .WrongKindFlag ∧
    Reader.parse_header ⟨[0x31], 0⟩ = .error .WrongLengthFlag ∧
    Reader.parse_header ⟨[0x20], 0⟩ = .ok none :=
  ⟨(claim_C5 0x15 [] 0).1 (by decide),
   (claim_C5 0x31 [] 0).2.1 (by decide) (by decide),
   (claim_C5 0x20 [] 0).2.2 2 (by decide) (by decide) (by decide)⟩

/-! ### The decoder never constructs a `Wrong`-kind message -/

lemma parse_header_kind (st : ReaderState) (info : PayloadInfo)
    (h : Reader.parse_header st = .ok (some info)) : info.kind ≠ Kind.Wrong := by
  match hpend : st.pending with
  | [] =>
    rw [Reader.parse_header, hpend] at h
    simp at h
  | b0 :: rest =>
    rw [Reader.parse_header, hpend] at h
    dsimp only at h
    by_cases hkind : Kind.fromU8 (b0 &&& 0x0F) = Kind.Wrong
    · rw [if_pos hkind] at h
      simp at h
    · rw [if_neg hkind] at h
      split at h
      · simp at h
      · split at h
        · simp at h
        · simp only [Except.ok.injEq, Option.some.injEq] at h
          rw [← h]
          exact hkind

lemma parse_kind (st st' : ReaderState) (m : Msg)
    (h : Reader.parse st = (.ready m, st')) : m.kind ≠ Kind.Wrong := by
  unfold Reader.parse at h
  match hph : Reader.parse_header st with
  | .error e =>
    rw [hph] at h
    simp at h
  | .ok none =>
    rw [hph] at h
    simp at h
  | .ok (some info) =>
    rw [hph] at h
    dsimp only at h
    split at h
    · split at h <;> simp at h
    · split at h
      · simp at h
      · simp only [Prod.mk.injEq, ParseResult.ready.injEq] at h
        rw [← h.1]
        exact parse_header_kind st info hph

/-- Claim C10: the stream decoder never emits a `Msg` whose kind is
`Wrong` — any header whose kind nibble does not map to `Data` or
`Response` is rejected before a `Msg` is constructed. -/
theorem claim_C10 (st : ReaderState) (chunk : List Nat) (m : Msg) (st' : ReaderState)
    (h : Reader.feed st chunk = (.ready m, st')) : m.kind ≠ Kind.Wrong := by
  unfold Reader.feed at h
  dsimp only at h
  match hp : Reader.parse
      ⟨st.pending ++ chunk, max st.cap (st.pending.length + chunk.length)⟩ with
  | (.error e, st2) =>
    rw [hp] at h
    simp at h
  | (.notReady, st2) =>
    rw [hp] at h
    simp at h
  | (.ready m', st2) =>
    rw [hp] at h
    simp only [Prod.mk.injEq, ParseResult.ready.injEq] at h
    rw [← h.1]
    exact parse_kind _ st2 m' hp

/-- Witness for C10 at a concrete one-frame chunk. -/
theorem claim_C10_witness :
    (⟨[0x10, 1, 7], Kind.Data, 2⟩ : Msg).kind ≠ Kind.Wrong :=
  claim_C10 ⟨[], 0⟩ [0x10, 1, 7] ⟨[0x10, 1, 7], Kind.Data, 2⟩ ⟨[], 64⟩ (by decide)

/-! ### Buffer-reset invariant -/

/-- Case analysis of `Reader.parse`: `NotReady` keeps the buffered bytes,
an error leaves the state untouched (the caller drops it), and a message
takes the whole buffer and reserves the default capacity 64. -/
lemma parse_shape (st : ReaderState) :
    (∃ st2, Reader.parse st = (.notReady, st2) ∧ st2.pending = st.pending) ∨
    (∃ e, Reader.parse st = (.error e, st)) ∨
    (∃ k hl, Reader.parse st =
      (.ready ⟨st.pending, k, hl⟩, ⟨[], max (st.cap - st.pending.length) 64⟩)) := by
  unfold Reader.parse
  match hph : Reader.parse_header st with
  | .error e => exact Or.inr (Or.inl ⟨e, rfl⟩)
  | .ok none => exact Or.inl ⟨st, rfl, rfl⟩
  | .ok (some info) =>
    dsimp only
    by_cases h1 : info.received_len < info.header_len + info.payload_len
    · rw [if_pos h1]
      by_cases h2 : info.bytes_capacity < info.header_len + info.payload_len
      · rw [if_pos h2]
        exact Or.inl ⟨_, rfl, rfl⟩
      · rw [if_neg h2]
        exact Or.inl ⟨st, rfl, rfl⟩
    · rw [if_neg h1]
      by_cases h3 : info.header_len + info.payload_len < info.received_len ∨
          MESSAGE_MAX_LEN < info.payload_len
      · rw [if_pos h3]
        exact Or.inr (Or.inl ⟨.IncorrectSize, rfl⟩)
      · rw [if_neg h3]
        exact Or.inr (Or.inr ⟨info.kind, info.header_len, rfl⟩)

/-- Claim C9 (decode-buffer reset invariant): after a `feed` step that
emits a message, the buffer is empty with at least the default reserved
capacity 64, and the message took exactly all buffered bytes; after a
step that surfaces a decode error, the buffer is likewise empty with the
default capacity reserved; after a step with no message, the buffer holds
exactly the bytes received and not yet consumed. -/
theorem claim_C9 (st : ReaderState) (chunk : List Nat) :
    (∀ m st', Reader.feed st chunk = (.ready m, st') →
      st'.pending = [] ∧ 64 ≤ st'.cap ∧ m.bytes = st.pending ++ chunk) ∧
    (∀ e st', Reader.feed st chunk = (.error e, st') →
      st'.pending = [] ∧ 64 ≤ st'.cap) ∧
    (∀ st', Reader.feed st chunk = (.notReady, st') →
      st'.pending = st.pending ++ chunk) := by
  have hshape := parse_shape
    ⟨st.pending ++ chunk, max st.cap (st.pending.length + chunk.length)⟩
  rcases hshape with ⟨st2, hp, hpend⟩ | ⟨e, hp⟩ | ⟨k, hl, hp⟩
  · have hfeed := feed_of_parse_notReady st chunk st2 hp
    refine ⟨fun m st' h => ?_, fun e st' h => ?_, fun st' h => ?_⟩
    · rw [hfeed] at h
      simp at h
    · rw [hfeed] at h
      simp at h
    · rw [hfeed] at h
      injection h with h1 h2
      rw [← h2]
      exact hpend
  · have hfeed := feed_of_parse_error st chunk e _ hp
    refine ⟨fun m st' h => ?_, fun e' st' h => ?_, fun st' h => ?_⟩
    · rw [hfeed] at h
      simp at h
    · rw [hfeed] at h
      simp only [Prod.mk.injEq, ParseResult.error.injEq] at h
      rw [← h.2]
      exact ⟨rfl, le_max_right _ _⟩
    · rw [hfeed] at h
      simp at h
  · have hfeed := feed_of_parse_ready st chunk ⟨st.pending ++ chunk, k, hl⟩ _ hp
    refine ⟨fun m st' h => ?_, fun e st' h => ?_, fun st' h => ?_⟩
    · rw [hfeed] at h
      simp only [Prod.mk.injEq, ParseResult.ready.injEq] at h
      refine ⟨?_, ?_, ?_⟩
      · rw [← h.2]
      · rw [← h.2]
        exact le_max_right _ _
      · rw [← h.1]
    · rw [hfeed] at h
      simp at h
    · rw [hfeed] at h
      simp at h

/-- Witness for C9 at a concrete one-frame chunk fed to a fresh reader. -/
theorem claim_C9_witness :
    (⟨[], 64⟩ : ReaderState).pending = [] ∧ 64 ≤ (⟨[], 64⟩ : ReaderState).cap ∧
    (⟨[0x10, 1, 7], Kind.Data, 2⟩ : Msg).bytes =
      (⟨[], 0⟩ : ReaderState).pending ++ [0x10, 1, 7] :=
  (claim_C9 ⟨[], 0⟩ [0x10, 1, 7]).1 ⟨[0x10, 1, 7], Kind.Data, 2⟩ ⟨[], 64⟩ (by decide)

/-- Claim C7 (acknowledgement): on every received `Data` message the
peer writes exactly one `Response` frame carrying the literal payload
`b"message received"`, and this write precedes the dispatch of the
payload to the display policy. -/
theorem claim_C7 (st : PeerState) (msg : Msg) (now : Nat) (h : msg.kind = .Data) :
    Peer.handleMsg st msg now =
      (st, [.write (to_binary messageReceived .Response), .display msg.message]) := by
  unfold Peer.handleMsg
  rw [h]

/-- Witness for C7 at a concrete `Data` message. -/
theorem claim_C7_witness :
    Peer.handleMsg ⟨[]⟩ ⟨[0x10, 1, 7], Kind.Data, 2⟩ 0 =
      (⟨[]⟩, [.write (to_binary messageReceived .Response),
        .display (⟨[0x10, 1, 7], Kind.Data, 2⟩ : Msg).message]) :=
  claim_C7 ⟨[]⟩ ⟨[0x10, 1, 7], Kind.Data, 2⟩ 0 rfl

/-- Claim C8 (empty-queue `Response` is non-fatal): on a `Response`
message the peer pops the oldest pending time stamp and reports the
elapsed time since it; when the queue is empty the reported elapsed time
is zero, the queue stays empty, and the handler neither closes the
connection nor errors (the `close` effect is never produced). -/
theorem claim_C8 (st : PeerState) (msg : Msg) (now : Nat) (h : msg.kind = .Response) :
    (st.delays = [] →
      Peer.handleMsg st msg now = (st, [.report msg.message 0])) ∧
    (∀ t rest, st.delays = t :: rest →
      Peer.handleMsg st msg now = (⟨rest⟩, [.report msg.message (now - t)])) ∧
    Effect.close ∉ (Peer.handleMsg st msg now).2 := by
  obtain ⟨delays⟩ := st
  unfold Peer.handleMsg
  rw [h]
  refine ⟨fun hd => ?_, fun t rest hd => ?_, ?_⟩
  · simp only at hd
    subst hd
    rfl
  · simp only at hd
    subst hd
    rfl
  · cases delays <;> simp

/-- Witness for C8 at a concrete `Response` message and an empty queue. -/
theorem claim_C8_witness :
    Peer.handleMsg ⟨[]⟩ ⟨[0x11, 1, 7], Kind.Response, 2⟩ 5 =
      (⟨[]⟩, [.report (⟨[0x11, 1, 7], Kind.Response, 2⟩ : Msg).message 0]) :=
  (claim_C8 ⟨[]⟩ ⟨[0x11, 1, 7], Kind.Response, 2⟩ 5 rfl).1 rfl

/-- Counterexample to C2 as stated: the concatenation of the two valid
frames `to_binary [1] Data = [0x10,1,1]` and `to_binary [2] Data =
[0x10,1,2]`, fed to a fresh stream decoder as one chunk, yields the
decode error `IncorrectSize` (and the dropped buffer), not two decoded
messages. -/
theorem claim_C2_counterexample :
    Reader.feed ReaderState.new (to_binary [1] .Data ++ to_binary [2] .Data) =
      (.error .IncorrectSize, ⟨[], 64⟩) := by
  decide

/-- Claim C2 as amended: feeding the concatenation of two valid encoded
frames to the stream decoder as one chunk yields the decode error
`IncorrectSize` (the buffered length exceeds the first frame's total
length); the two decoded messages are produced, in order, exactly when
the two frames arrive in separate read events. -/
theorem claim_C2_amended (p1 p2 : List Nat) (k1 k2 : Kind)
    (hk1 : k1 ≠ .Wrong) (hk2 : k2 ≠ .Wrong)
    (hp1 : p1.length ≤ 2 ^ 48) (hp2 : p2.length ≤ 2 ^ 48) :
    (Reader.feed ReaderState.new (to_binary p1 k1 ++ to_binary p2 k2)).1 =
      .error .IncorrectSize ∧
    Reader.feed ReaderState.new (to_binary p1 k1) =
      (.ready ⟨to_binary p1 k1, k1, headerLen p1.length⟩, ⟨[], 64⟩) ∧
    (Reader.feed ⟨[], 64⟩ (to_binary p2 k2)).1 =
      .ready ⟨to_binary p2 k2, k2, headerLen p2.length⟩ := by
  have hn1 := lt_pow_widthOf p1.length (lt_of_le_of_lt hp1 (by norm_num))
  have hf2ne : to_binary p2 k2 ≠ [] :=
    List.length_pos.mp (by rw [length_to_binary]; omega)
  refine ⟨?_, ?_, ?_⟩
  · have hcat : to_binary p1 k1 ++ to_binary p2 k2 =
        (k1.toU8 ||| 16 * widthOf p1.length) ::
          (beBytes (widthOf p1.length) p1.length ++ (p1 ++ to_binary p2 k2)) := by
      rw [to_binary_shape p1 k1]
      simp [List.append_assoc]
    have hover := parse_overfull k1.toU8 (widthOf p1.length) p1.length p1
      (to_binary p2 k2)
      (max ReaderState.new.cap
        (ReaderState.new.pending.length + (to_binary p1 k1 ++ to_binary p2 k2).length))
      (toU8_lt_two k1 hk1) (widthOf_mem p1.length) hn1 rfl hf2ne
    rw [← hcat] at hover
    have hfeed := feed_of_parse_error ReaderState.new
      (to_binary p1 k1 ++ to_binary p2 k2) .IncorrectSize _ hover
    rw [hfeed]
  · have h1 := feed_whole_frame p1 k1 0 hk1 hp1
    have hcap : max (max 0 (to_binary p1 k1).length - (to_binary p1 k1).length) 64 = 64 := by
      simp
    rw [hcap] at h1
    exact h1
  · rw [feed_whole_frame p2 k2 64 hk2 hp2]

/-- Witness for the amended C2 at the concrete frames for payloads `[1]`
and `[2]`. -/
theorem claim_C2_amended_witness :
    (Reader.feed ReaderState.new (to_binary [1] .Data ++ to_binary [2] .Data)).1 =
      .error .IncorrectSize ∧
    Reader.feed ReaderState.new (to_binary [1] .Data) =
      (.ready ⟨to_binary [1] .Data, .Data, headerLen ([1] : List Nat).length⟩, ⟨[], 64⟩) ∧
    (Reader.feed ⟨[], 64⟩ (to_binary [2] .Data)).1 =
      .ready ⟨to_binary [2] .Data, .Data, headerLen ([2] : List Nat).length⟩ :=
  claim_C2_amended [1] [2] .Data .Data (by decide) (by decide) (by decide) (by decide)

/-! ### Incremental delivery -/

lemma join_ne_nil_of_ne (cs : List (List Nat)) (hcs : cs ≠ [])
    (hne : ∀ c ∈ cs, c ≠ []) : cs.flatten ≠ [] := by
  match cs with
  | [] => exact absurd rfl hcs
  | c :: cs' =>
    have hc : c ≠ [] := hne c (List.mem_cons_self c cs')
    simp only [List.flatten_cons]
    intro hnil
    rcases List.append_eq_nil.mp hnil with ⟨h1, _⟩
    exact hc h1

/-- Feeding a well-formed frame split into nonempty chunks: every
intermediate read is `NotReady`, the final read yields the frame as one
message. -/
lemma feedAll_frame_chunks (t w n : Nat) (payload : List Nat)
    (ht : t = 0 ∨ t = 1) (hw : w = 1 ∨ w = 2 ∨ w = 4 ∨ w = 8)
    (hn : n < 256 ^ w) (hpl : payload.length = n)
    (hmax : ¬ MESSAGE_MAX_LEN < n) (chunks : List (List Nat)) :
    ∀ (pre : List Nat) (cap : Nat),
      (∀ c ∈ chunks, c ≠ []) → chunks ≠ [] →
      pre ++ chunks.flatten = (t ||| 16 * w) :: (beBytes w n ++ payload) →
      (Reader.feedAll ⟨pre, cap⟩ chunks).1 =
        List.replicate (chunks.length - 1) ParseResult.notReady ++
          [ParseResult.ready ⟨(t ||| 16 * w) :: (beBytes w n ++ payload),
            Kind.fromU8 t, w + 1⟩] := by
  induction chunks with
  | nil =>
    intro pre cap hne hcs hjoin
    exact absurd rfl hcs
  | cons c cs ih =>
    intro pre cap hne hcs hjoin
    by_cases hcs' : cs = []
    · subst hcs'
      have hprec : pre ++ c = (t ||| 16 * w) :: (beBytes w n ++ payload) := by
        simpa [List.flatten] using hjoin
      have hfeed : Reader.feed ⟨pre, cap⟩ c =
          (.ready ⟨(t ||| 16 * w) :: (beBytes w n ++ payload), Kind.fromU8 t, w + 1⟩,
           ⟨[], max (max cap (pre.length + c.length) - (w + n + 1)) 64⟩) := by
        apply feed_of_parse_ready
        show Reader.parse ⟨pre ++ c, max cap (pre.length + c.length)⟩ = _
        rw [hprec]
        exact parse_exact t w n payload _ ht hw hn hpl hmax
      simp only [Reader.feedAll, hfeed]
      simp
    · have hsuf := join_ne_nil_of_ne cs hcs'
        (fun x hx => hne x (List.mem_cons_of_mem c hx))
      have hsplit : (pre ++ c) ++ cs.flatten =
          (t ||| 16 * w) :: (beBytes w n ++ payload) := by
        rw [List.append_assoc]
        simpa [List.flatten_cons] using hjoin
      obtain ⟨c2, hparse⟩ := parse_proper_front t w n payload (pre ++ c) cs.flatten
        (max cap (pre.length + c.length)) ht hw hn hpl hsplit hsuf
      have hfeed := feed_of_parse_notReady ⟨pre, cap⟩ c ⟨pre ++ c, c2⟩ hparse
      have hih := ih (pre ++ c) c2
        (fun x hx => hne x (List.mem_cons_of_mem c hx)) hcs' hsplit
      simp only [Reader.feedAll, hfeed]
      rw [hih]
      have hlen : (c :: cs).length - 1 = (cs.length - 1) + 1 := by
        have : cs.length ≠ 0 := fun h0 => hcs' (List.length_eq_zero.mp h0)
        simp only [List.length_cons]
        omega
      rw [hlen, List.replicate_succ]
      simp

/-- Claim C3 (incremental delivery): feeding a valid encoded frame split
into any sequence of nonempty consecutive chunks yields `NotReady` (no
message, no error) on every chunk but the last, and on the last chunk
yields exactly the same single decoded message as feeding the whole
frame at once. -/
theorem claim_C3 (p : List Nat) (k : Kind) (chunks : List (List Nat))
    (hk : k ≠ .Wrong) (hp : p.length ≤ 2 ^ 48)
    (hjoin : chunks.flatten = to_binary p k)
    (hne : ∀ c ∈ chunks, c ≠ []) :
    (Reader.feedAll ReaderState.new chunks).1 =
      List.replicate (chunks.length - 1) ParseResult.notReady ++
        [ParseResult.ready ⟨to_binary p k, k, headerLen p.length⟩] ∧
    (Reader.feed ReaderState.new (to_binary p k)).1 =
      .ready ⟨to_binary p k, k, headerLen p.length⟩ := by
  have hn := lt_pow_widthOf p.length (lt_of_le_of_lt hp (by norm_num))
  have hmax : ¬ MESSAGE_MAX_LEN < p.length := by
    rw [max_len_eq]
    omega
  have hchne : chunks ≠ [] := by
    intro h0
    rw [h0] at hjoin
    have hlt := length_to_binary p k
    rw [← hjoin] at hlt
    simp at hlt
    omega
  constructor
  · have haux := feedAll_frame_chunks k.toU8 (widthOf p.length) p.length p
      (toU8_lt_two k hk) (widthOf_mem p.length) hn rfl hmax chunks [] 0 hne hchne
      (by rw [List.nil_append, hjoin, to_binary_shape])
    rw [← to_binary_shape, Kind.fromU8_toU8 k hk] at haux
    exact haux
  · simp only [ReaderState.new]
    rw [feed_whole_frame p k 0 hk hp]

/-- Witness for C3: the frame for payload `[1,2,3]` split into the chunks
`[0x10]`, `[3,1]`, `[2,3]`. -/
theorem claim_C3_witness :
    (Reader.feedAll ReaderState.new [[0x10], [3, 1], [2, 3]]).1 =
      List.replicate 2 ParseResult.notReady ++
        [ParseResult.ready ⟨to_binary [1, 2, 3] .Data, .Data,
          headerLen ([1, 2, 3] : List Nat).length⟩] ∧
    (Reader.feed ReaderState.new (to_binary [1, 2, 3] .Data)).1 =
      .ready ⟨to_binary [1, 2, 3] .Data, .Data,
        headerLen ([1, 2, 3] : List Nat).length⟩ :=
  claim_C3 [1, 2, 3] .Data [[0x10], [3, 1], [2, 3]]
    (by decide) (by decide) (by decide) (by decide)

/-! ### Oversized frames -/

/-- Counterexample to C4 as stated: the 9-byte buffer holding exactly a
well-formed header that declares payload length `2^48 + 1` (flag `0x80`,
kind `Data`) makes the decoder return `NotReady` — it waits for the
declared bytes (reserving capacity) instead of yielding a decode error. -/
theorem claim_C4_counterexample :
    Reader.parse ⟨[0x80, 0, 1, 0, 0, 0, 0, 0, 1], 0⟩ =
      (.notReady, ⟨[0x80, 0, 1, 0, 0, 0, 0, 0, 1], 281474976710676⟩) := by
  decide

/-- Claim C4 as amended: for a buffer beginning with a well-formed header
whose declared payload length `n` exceeds `2^48`, the decoder yields the
decode error `IncorrectSize` as soon as the buffer holds at least
`header_len + n` bytes, and reports `NotReady` (no message, no error)
while it holds fewer; a declared length of exactly `2^48` with a
complete frame is accepted as a message. -/
theorem claim_C4_amended (t w n : Nat) (tail : List Nat) (cap : Nat)
    (ht : t = 0 ∨ t = 1) (hw : w = 1 ∨ w = 2 ∨ w = 4 ∨ w = 8)
    (hn : n < 256 ^ w) :
    (2 ^ 48 < n → (w + 1) + n ≤ w + tail.length + 1 →
      (Reader.parse ⟨(t ||| 16 * w) :: (beBytes w n ++ tail), cap⟩).1 =
        .error .IncorrectSize) ∧
    (2 ^ 48 < n → w + tail.length + 1 < (w + 1) + n →
      (Reader.parse ⟨(t ||| 16 * w) :: (beBytes w n ++ tail), cap⟩).1 =
        .notReady) ∧
    (n = 2 ^ 48 → tail.length = n →
      (Reader.parse ⟨(t ||| 16 * w) :: (beBytes w n ++ tail), cap⟩).1 =
        .ready ⟨(t ||| 16 * w) :: (beBytes w n ++ tail), Kind.fromU8 t, w + 1⟩) := by
  have hph := parse_header_complete t w n tail cap ht hw hn
  refine ⟨fun hbig hfull => ?_, fun hbig hshort => ?_, fun heq hfull => ?_⟩
  · simp only [Reader.parse, hph]
    rw [if_neg (show ¬ (w + tail.length + 1 < (w + 1) + n) by omega)]
    rw [if_pos (Or.inr (show MESSAGE_MAX_LEN < n by rw [max_len_eq]; omega))]
  · simp only [Reader.parse, hph]
    rw [if_pos (show w + tail.length + 1 < (w + 1) + n by omega)]
    split_ifs <;> rfl
  · have hmax : ¬ MESSAGE_MAX_LEN < n := by
      rw [max_len_eq]
      omega
    rw [parse_exact t w n tail cap ht hw hn hfull hmax]

/-- Witness for the amended C4: declared length `2^48 + 1` with a full
buffer errors, the same header alone is `NotReady`, and declared length
exactly `2^48` with a full buffer yields the message. -/
theorem claim_C4_amended_witness :
    (Reader.parse ⟨(0 ||| 16 * 8) ::
        (beBytes 8 (2 ^ 48 + 1) ++ List.replicate (2 ^ 48 + 1) 0), 0⟩).1 =
      .error .IncorrectSize ∧
    (Reader.parse ⟨(0 ||| 16 * 8) :: (beBytes 8 (2 ^ 48 + 1) ++ []), 0⟩).1 =
      .notReady ∧
    (Reader.parse ⟨(0 ||| 16 * 8) ::
        (beBytes 8 (2 ^ 48) ++ List.replicate (2 ^ 48) 0), 0⟩).1 =
      .ready ⟨(0 ||| 16 * 8) :: (beBytes 8 (2 ^ 48) ++ List.replicate (2 ^ 48) 0),
        Kind.fromU8 0, 8 + 1⟩ :=
  ⟨(claim_C4_amended 0 8 (2 ^ 48 + 1) (List.replicate (2 ^ 48 + 1) 0) 0
      (Or.inl rfl) (Or.inr (Or.inr (Or.inr rfl))) (by norm_num)).1
      (by norm_num) (by simp only [List.length_replicate]; omega),
   (claim_C4_amended 0 8 (2 ^ 48 + 1) [] 0
      (Or.inl rfl) (Or.inr (Or.inr (Or.inr rfl))) (by norm_num)).2.1
      (by norm_num) (by simp only [List.length_nil]; omega),
   (claim_C4_amended 0 8 (2 ^ 48) (List.replicate (2 ^ 48) 0) 0
      (Or.inl rfl) (Or.inr (Or.inr (Or.inr rfl))) (by norm_num)).2.2
      rfl (by simp only [List.length_replicate])⟩

end Chat
